import Mathlib

/-
Verification of the Biome analytics engine (backend/analytics/db.py) against its
natural-language specification.

Shallow embedding conventions:
* Calendar dates are integers counting days since 1970-01-01 (1970-01-01 was a
  Thursday).  SQL DATE arithmetic (`date - interval 'n days'`) is integer
  subtraction, `EXTRACT(YEAR FROM date)` is `civilYear` below.
* SQL DOUBLE columns are modelled as exact rationals; the claims under study
  compare, add and multiply stored values, which the rationals model exactly.
* A DuckDB table is a `List` of rows; SQL aggregates (`MAX`, `MIN`, `SUM`,
  `COUNT(DISTINCT ...)`) are the corresponding list operations.  Window scans
  (`LAG ... OVER (ORDER BY row_id)`, `ROW_NUMBER ... ORDER BY date DESC`)
  enumerate the rows sorted by the ordering key.
* Each `con.execute` in db.py runs in DuckDB auto-commit mode: every statement
  commits on its own, which the state-passing functions mirror statement by
  statement (this matters for `import_user_data`).
-/

namespace Biome

/-- One row of `training_history` / `demo_training_history` (schema created in
`AnalyticsEngine._init_db`).  `row_id` is the write-order key the code calls
`insertion_order` in the spec; nullable columns are `Option`s. -/
structure Row where
  row_id : Int
  date : Int
  workout : Option String := none
  exercise : Option String := none
  set_number : Option Int := none
  reps : Option Int := none
  duration_seconds : Option Int := none
  weight_kg : Option ℚ := none
  machine_level : Option ℚ := none
  warm_up : Option String := none
  rpe : Option ℚ := none
  notes : Option String := none
deriving DecidableEq

/-- The engine state: the two set-entry partitions, the weight table, and the
process-wide read selector (`self.active_table`): `demo_mode = true` means
`active_table = "demo_training_history"`. -/
structure EngineState where
  training_history : List Row
  demo_training_history : List Row
  demo_mode : Bool
  weight_history : List (Int × ℚ)
deriving DecidableEq

/-- Rows of the currently selected partition (`self.active_table`). -/
def EngineState.activeRows (st : EngineState) : List Row :=
  if st.demo_mode then st.demo_training_history else st.training_history

/-- SQL `MAX` over an integer column (ignores no rows; `none` on empty input). -/
def sqlMaxI (l : List Int) : Option Int := l.max?

/-- SQL `MAX` over a DOUBLE column. -/
def sqlMaxQ (l : List ℚ) : Option ℚ := l.max?

/-- SQL `MIN` over a DOUBLE column. -/
def sqlMinQ (l : List ℚ) : Option ℚ := l.min?

/-- Python `x or d` on an `Optional[int]` (`None` and `0` are falsy). -/
def pyOrI (x : Option Int) (d : Int) : Int :=
  match x with
  | none => d
  | some v => if v = 0 then d else v

/-- Python `date.weekday()`: Monday = 0.  Day 0 (1970-01-01) was a Thursday. -/
def pyWeekday (d : Int) : Int := (d + 3) % 7

/-- The calendar year of a day number (days since 1970-01-01), i.e.
`EXTRACT(YEAR FROM date)`; Gregorian civil-from-days computation. -/
def civilYear (z : Int) : Int :=
  let days := z + 719468
  let era := (if 0 ≤ days then days else days - 146096) / 146097
  let doe := days - era * 146097
  let yoe := (doe - doe / 1460 + doe / 36524 - doe / 146096) / 365
  let y := yoe + era * 400
  let doy := doe - (365 * yoe + yoe / 4 - yoe / 100)
  let mp := (5 * doy + 2) / 153
  if 10 ≤ mp then y + 1 else y

/-- Lower-cased character list of a string (for `ILIKE`). -/
def lcChars (s : String) : List Char := s.toList.map Char.toLower

/-- Does `pat` occur at the head of `hay`? -/
def matchesAt : List Char → List Char → Bool
  | [], _ => true
  | _ :: _, [] => false
  | a :: as, b :: bs => a == b && matchesAt as bs

/-- Does `pat` occur anywhere in `hay`? -/
def containsChars (pat : List Char) : List Char → Bool
  | [] => matchesAt pat []
  | c :: cs => matchesAt pat (c :: cs) || containsChars pat cs

/-- SQL `s ILIKE '%pat%'`: case-insensitive substring containment. -/
def ilikeSub (s pat : String) : Bool := containsChars (lcChars pat) (lcChars s)

/-- Modelled from the spec: the Pydantic model `WorkoutLogEntry` (defined in
`models.py`, which is not under src/; only its importers are).  Per §3 and §7
of the spec, `date` and `exercise` are required and every other field is
optional; the fields are the ones `log_workout` binds into its INSERT. -/
structure WorkoutLogEntry where
  date : Int
  workout : Option String := none
  exercise : String
  set_number : Option Int := none
  reps : Option Int := none
  weight_kg : Option ℚ := none
  rpe : Option ℚ := none
  notes : Option String := none
deriving DecidableEq

/-- `AnalyticsEngine.toggle_demo_mode`: flips the read selector only. -/
def toggle_demo_mode (st : EngineState) (enabled : Bool) : EngineState :=
  { st with demo_mode := enabled }

/-- `SELECT MAX(row_id) FROM training_history`, then Python
`(res[0] or 0) + 1` (the fetched row always exists for an aggregate). -/
def nextRowId (rows : List Row) : Int :=
  pyOrI (sqlMaxI (rows.map Row.row_id)) 0 + 1

/-- The row `AnalyticsEngine.log_workout` inserts: columns absent from the
INSERT column list (`duration_seconds`, `machine_level`, `warm_up`) are NULL. -/
def logWorkoutRow (rows : List Row) (e : WorkoutLogEntry) : Row :=
  { row_id := nextRowId rows
    date := e.date
    workout := e.workout
    exercise := some e.exercise
    set_number := e.set_number
    reps := e.reps
    duration_seconds := none
    weight_kg := e.weight_kg
    machine_level := none
    warm_up := none
    rpe := e.rpe
    notes := e.notes }

/-- `AnalyticsEngine.log_workout`: always inserts into `training_history`. -/
def log_workout (st : EngineState) (e : WorkoutLogEntry) : EngineState :=
  { st with training_history :=
      st.training_history ++ [logWorkoutRow st.training_history e] }

/-- `AnalyticsEngine.log_weight`: `INSERT ... ON CONFLICT (date) DO UPDATE`. -/
def log_weight (st : EngineState) (d : Int) (w : ℚ) : EngineState :=
  { st with weight_history :=
      if st.weight_history.any (fun p => p.1 == d) then
        st.weight_history.map (fun p => if p.1 == d then (d, w) else p)
      else
        st.weight_history ++ [(d, w)] }

/-- A parsed CSV row of the bulk-import payload (header columns per §6);
`row_id` is not part of the payload, it is assigned by the INSERT. -/
structure CsvRow where
  date : Int
  workout : Option String := none
  exercise : Option String := none
  set_number : Option Int := none
  reps : Option Int := none
  duration_seconds : Option Int := none
  weight_kg : Option ℚ := none
  machine_level : Option ℚ := none
  warm_up : Option String := none
  rpe : Option ℚ := none
  notes : Option String := none
deriving DecidableEq

/-- `SELECT row_number() OVER () as row_id, * FROM read_csv_auto(...)`:
row ids 1..N in payload order. -/
def assignRowIds (rows : List CsvRow) : List Row :=
  rows.enum.map (fun p =>
    { row_id := (p.1 : Int) + 1
      date := p.2.date
      workout := p.2.workout
      exercise := p.2.exercise
      set_number := p.2.set_number
      reps := p.2.reps
      duration_seconds := p.2.duration_seconds
      weight_kg := p.2.weight_kg
      machine_level := p.2.machine_level
      warm_up := p.2.warm_up
      rpe := p.2.rpe
      notes := p.2.notes })

/-- `AnalyticsEngine.import_user_data`.  The `DELETE FROM training_history` and
the `INSERT ... FROM read_csv_auto(...)` are two separate statements, each
auto-committed by DuckDB; `parsed` is the outcome of `read_csv_auto` on the
uploaded file (`.error` = malformed/unparseable row).  On parse failure the
exception propagates (`raise e`) with the DELETE already committed. -/
def import_user_data (st : EngineState) (parsed : Except String (List CsvRow)) :
    Except String Nat × EngineState :=
  let wiped : EngineState := { st with training_history := [] }
  match parsed with
  | .error e => (.error e, wiped)
  | .ok rows => (.ok rows.length, { wiped with training_history := assignRowIds rows })

/-- `AnalyticsEngine.get_latest_date`: `MAX(date)` of the active partition,
falling back to `date.today()` on an empty partition. -/
def get_latest_date (today : Int) (st : EngineState) : Int :=
  match sqlMaxI (st.activeRows.map Row.date) with
  | some d => d
  | none => today

/-- The dict returned by `AnalyticsEngine.get_overview_metrics`. -/
structure OverviewMetrics where
  weekly_frequency : Nat
  total_volume_load_current_week : ℚ
  active_weak_points_count : Nat
  is_demo : Bool
deriving DecidableEq

/-- `SUM(weight_kg * reps)` contribution of one row under the
`weight_kg IS NOT NULL AND reps IS NOT NULL` guard. -/
def volTerm (r : Row) : Option ℚ :=
  match r.weight_kg, r.reps with
  | some w, some n => some (w * (n : ℚ))
  | _, _ => none

/-- `workout ILIKE '%Weak Point%'` (NULL workout does not match). -/
def weakPointB (r : Row) : Bool :=
  match r.workout with
  | some s => ilikeSub s "Weak Point"
  | none => false

/-- `AnalyticsEngine.get_overview_metrics`: KPIs over the Monday-anchored week
ending at the latest recorded date of the active partition. -/
def get_overview_metrics (today : Int) (st : EngineState) : OverviewMetrics :=
  let latest := get_latest_date today st
  let start_of_week := latest - pyWeekday latest
  let weekRows := st.activeRows.filter
    (fun r => decide (start_of_week ≤ r.date ∧ r.date ≤ latest))
  { weekly_frequency := ((weekRows.map Row.date).dedup).length
    total_volume_load_current_week := (weekRows.filterMap volTerm).sum
    active_weak_points_count := (weekRows.filter weakPointB).length
    is_demo := st.demo_mode }

/-- `SELECT DISTINCT exercise FROM {active} ORDER BY exercise` (NULLS LAST,
DuckDB's default), then the Python list comprehension `[r[0] for r in res if
r[0]]`, whose truthiness test drops both `None` and the empty string. -/
def optStrLeB (a b : Option String) : Bool :=
  match a, b with
  | _, none => true
  | none, some _ => false
  | some x, some y => decide (x ≤ y)

/-- Python truthiness filter `if r[0]` on a fetched VARCHAR cell: drops both
`None` and the empty string. -/
def pyTruthyStr (o : Option String) : Option String :=
  match o with
  | some s => if s = "" then none else some s
  | none => none

/-- `AnalyticsEngine.get_exercises` on the rows of the active partition. -/
def get_exercises (rows : List Row) : List String :=
  (List.insertionSort (fun a b => optStrLeB a b = true)
    ((rows.map Row.exercise).dedup)).filterMap pyTruthyStr

/-- `COALESCE(weight_kg, machine_level)`. -/
def coalWM (r : Row) : Option ℚ :=
  match r.weight_kg with
  | some w => some w
  | none => r.machine_level

/-- The `WHERE (weight_kg IS NOT NULL OR machine_level IS NOT NULL)` base set
shared by the stagnation and progress queries. -/
def stagBase (rows : List Row) : List Row :=
  rows.filter (fun r => (coalWM r).isSome)

/-- The distinct dates of one exercise group in the stagnation CTE
(`GROUP BY exercise, date` restricted to the group key `ex`). -/
def stagDates (rows : List Row) (ex : Option String) : List Int :=
  (((stagBase rows).filter (fun r => decide (r.exercise = ex))).map Row.date).dedup

/-- `MAX(COALESCE(weight_kg, machine_level))` of one `(exercise, date)` group. -/
def dateMaxVal (rows : List Row) (ex : Option String) (d : Int) : Option ℚ :=
  sqlMaxQ (((stagBase rows).filter
    (fun r => decide (r.exercise = ex ∧ r.date = d))).filterMap coalWM)

/-- `ORDER BY date DESC` on the distinct dates of one exercise group (dates in
a group are distinct, so the ranking is deterministic). -/
def sortDescInt (l : List Int) : List Int :=
  List.insertionSort (fun a b : Int => b ≤ a) l

/-- `HAVING COUNT(*) >= 3` over the `(exercise, max_val)` regrouping of the
top-3 ranked rows: with at most 3 rows per exercise it demands all three
per-date maxima equal. -/
def allThreeEqual (a b c : Option ℚ) : Bool :=
  decide (a = b) && decide (b = c)

/-- The stagnation rule's firing decision for one exercise group: at least 3
ranked distinct dates, and the per-date maxima of the 3 most recent all equal. -/
def stagnationFires (rows : List Row) (ex : Option String) : Bool :=
  match sortDescInt (stagDates rows ex) with
  | d1 :: d2 :: d3 :: _ =>
      allThreeEqual (dateMaxVal rows ex d1) (dateMaxVal rows ex d2) (dateMaxVal rows ex d3)
  | _ => false

/-- The values the progress rule aggregates for one exercise group: the
`FILTER (WHERE date >= current_date - interval '30 days')` window over the
non-null `COALESCE(weight_kg, machine_level)` rows (the SQL window has no
upper bound on `date`). -/
def progressWindowVals (today : Int) (rows : List Row) (ex : Option String) : List ℚ :=
  ((stagBase rows).filter
    (fun r => decide (r.exercise = ex) && decide (today - 30 ≤ r.date))).filterMap coalWM

/-- The progress rule's firing decision for one exercise group:
`WHERE max_val > min_val * 1.05` (NULL min/max — empty window — never fires). -/
def progressFires (today : Int) (rows : List Row) (ex : Option String) : Bool :=
  match sqlMinQ (progressWindowVals today rows ex),
        sqlMaxQ (progressWindowVals today rows ex) with
  | some mn, some mx => decide (mn * (21 / 20 : ℚ) < mx)
  | _, _ => false

/-- The scan order of the integrity query's window
(`LAG(date) OVER (ORDER BY row_id)`). -/
def sortByRowId (rows : List Row) : List Row :=
  List.insertionSort (fun a b : Row => a.row_id ≤ b.row_id) rows

/-- Adjacent `(predecessor, successor)` pairs in `row_id` order — the rows the
`LAG` window produces with `prev_date IS NOT NULL`. -/
def adjacentPairs (rows : List Row) : List (Row × Row) :=
  (sortByRowId rows).zip (sortByRowId rows).tail

/-- `EXTRACT(YEAR FROM date) < EXTRACT(YEAR FROM prev_date)` for an adjacent
pair `(predecessor, successor)`. -/
def anomalousPair (p : Row × Row) : Bool :=
  decide (civilYear p.2.date < civilYear p.1.date)

/-- The integrity query's result: `SELECT DISTINCT date, prev_date ... LIMIT 1`
over the `row_id`-ordered scan.  The outer query has no ORDER BY; taking the
first candidate of the ordered window scan (deduplication cannot change the
first element) models the streamed `LIMIT 1`. -/
def integrityAnomaly (rows : List Row) : Option (Row × Row) :=
  ((adjacentPairs rows).filter anomalousPair).head?

/-- One finding dict of `get_automated_insights`. -/
structure Insight where
  type : String
  category : String
  exercise : Option String := none
  message : String
deriving DecidableEq

/-- Abbreviated `strftime('%b %d, %Y')`: the day number rendered as text (the
claims under study do not depend on the calendar formatting of messages). -/
def dateStr (d : Int) : String := toString d

/-- The findings the integrity rule appends. -/
def integrityInsights (rows : List Row) : List Insight :=
  match integrityAnomaly rows with
  | some p =>
      [{ type := "critical", category := "integrity",
         message := "Data entry error? " ++ dateStr p.2.date ++ " follows "
           ++ dateStr p.1.date ++ " in your logs." }]
  | none => []

/-- A `try/except` around one rule: findings on success, skipped on failure. -/
def catchRule (outcome : Except String (List Insight)) : List Insight :=
  match outcome with
  | .ok xs => xs
  | .error _ => []

/-- The control flow of `AnalyticsEngine.get_automated_insights`, with each
rule's store-query outcome abstracted as an `Except` (a rule fails when its
SQL raises, e.g. on bad data; the pure embedding of a query cannot itself
raise).  Mirrors db.py statement by statement: the integrity block is inside
`try/except`, the stagnation query is NOT wrapped, the progress and RPE
blocks are each inside `try/except`; findings are concatenated in rule order
and truncated to 3 (exercise given) or 5. -/
def get_automated_insights (exercise : Option String)
    (integrity stagnation progress fatigue : Except String (List Insight)) :
    Except String (List Insight) :=
  let l0 := catchRule integrity
  match stagnation with
  | .error e => .error e
  | .ok s =>
      .ok ((l0 ++ s ++ catchRule progress ++ catchRule fatigue).take
        (if exercise.isSome then 3 else 5))

/-- The `date` column of `weight_history` (its PRIMARY KEY). -/
def weightKeys (w : List (Int × ℚ)) : List Int := w.map Prod.fst

/-- `SELECT weight_kg FROM weight_history WHERE date = d`. -/
def lookupWeight (w : List (Int × ℚ)) (d : Int) : Option ℚ :=
  (w.find? (fun p => p.1 == d)).map Prod.snd

/-- A sequence of `log_weight` calls, applied in order. -/
def applyWeightWrites (st : EngineState) (ws : List (Int × ℚ)) : EngineState :=
  ws.foldl (fun s p => log_weight s p.1 p.2) st

/-- The value of the most recent write for date `d` in a write sequence. -/
def lastWriteVal (ws : List (Int × ℚ)) (d : Int) : Option ℚ :=
  ((ws.filter (fun p => p.1 == d)).getLast?).map Prod.snd

/-- Follows the spec's words (§4.2 and claim C5): the three weekly KPIs stated
directly — distinct-date count, manual sum of `weight_kg * reps` over rows
with both fields present, and count of case-insensitive "weak point" rows,
all over the window `[week_start, latest]`. -/
def overviewPerSpec (today : Int) (st : EngineState) : OverviewMetrics :=
  let latest := get_latest_date today st
  let ws := latest - pyWeekday latest
  { weekly_frequency :=
      (((st.activeRows.map Row.date).filter
        (fun d => decide (ws ≤ d ∧ d ≤ latest))).toFinset).card
    total_volume_load_current_week :=
      ((st.activeRows.filter (fun r =>
          decide (ws ≤ r.date ∧ r.date ≤ latest)
            && (r.weight_kg.isSome && r.reps.isSome))).map
        (fun r => r.weight_kg.getD 0 * ((r.reps.getD 0 : Int) : ℚ))).sum
    active_weak_points_count :=
      st.activeRows.countP
        (fun r => decide (ws ≤ r.date ∧ r.date ≤ latest) && weakPointB r)
    is_demo := st.demo_mode }

/-- Follows the spec's words (claim C6): the exercise group has three distinct
dates, more recent than every other of its dates, in descending order, and
the per-date maxima of `COALESCE(weight_kg, machine_level)` on all three are
the same non-null value. -/
def stagPerSpec (rows : List Row) (ex : Option String) : Prop :=
  ∃ d1 d2 d3 : Int,
    d1 ∈ stagDates rows ex ∧ d2 ∈ stagDates rows ex ∧ d3 ∈ stagDates rows ex ∧
    d3 < d2 ∧ d2 < d1 ∧
    (∀ d ∈ stagDates rows ex, d = d1 ∨ d = d2 ∨ d = d3 ∨ d < d3) ∧
    ∃ v : ℚ, dateMaxVal rows ex d1 = some v ∧ dateMaxVal rows ex d2 = some v ∧
      dateMaxVal rows ex d3 = some v

/-- Follows the spec's words (claim C7): among the exercise's values in the
trailing-30-day window there are a least and a greatest one, and the greatest
strictly exceeds 1.05 times the least (no chronological condition). -/
def progressPerSpec (today : Int) (rows : List Row) (ex : Option String) : Prop :=
  ∃ mn mx : ℚ, mn ∈ progressWindowVals today rows ex ∧
    mx ∈ progressWindowVals today rows ex ∧
    (∀ v ∈ progressWindowVals today rows ex, mn ≤ v ∧ v ≤ mx) ∧
    mn * (21 / 20 : ℚ) < mx

/-- Follows the spec's words (claim C10, as stated): the distinct exercise
names sorted ascending, with only NULL names excluded. -/
def exercisesPerSpec (rows : List Row) : List String :=
  List.insertionSort (fun a b : String => a ≤ b) ((rows.filterMap Row.exercise).dedup)

/-- Concrete sample row used by witnesses. -/
def rowA : Row :=
  { row_id := 1, date := 19358, workout := some "Leg Day", exercise := some "Squat",
    weight_kg := some 100, reps := some 5 }

/-- Concrete sample state used by witnesses. -/
def stA : EngineState :=
  { training_history := [rowA], demo_training_history := [], demo_mode := true,
    weight_history := [(19358, 70)] }

/-- Concrete empty state used by witnesses. -/
def stEmpty : EngineState :=
  { training_history := [], demo_training_history := [], demo_mode := false,
    weight_history := [] }

/-- Concrete sample entry used by witnesses. -/
def entryA : WorkoutLogEntry :=
  { date := 19359, exercise := "Bench Press", reps := some 5, weight_kg := some 60 }

/-- Concrete integrity finding used by the C2 counterexample. -/
def insightA : Insight :=
  { type := "critical", category := "integrity", message := "m" }

/-- Concrete progress finding used by the C2 counterexample. -/
def insightB : Insight :=
  { type := "success", category := "progress", exercise := some "Squat", message := "p" }

/-- Concrete row with a non-null empty-string exercise (C10 counterexample). -/
def rowEmptyEx : Row := { row_id := 1, date := 0, exercise := some "" }

instance : IsTotal Int (fun a b : Int => b ≤ a) :=
  ⟨fun a b => le_total b a⟩

instance : IsTrans Int (fun a b : Int => b ≤ a) :=
  ⟨fun _ _ _ h h2 => le_trans h2 h⟩

instance : IsTotal (Option String) (fun a b => optStrLeB a b = true) :=
  ⟨fun a b => by
    cases a with
    | none => cases b <;> simp [optStrLeB]
    | some x => cases b with
      | none => simp [optStrLeB]
      | some y => simpa [optStrLeB] using le_total x y⟩

instance : IsTrans (Option String) (fun a b => optStrLeB a b = true) :=
  ⟨fun a b c h h2 => by
    cases a <;> cases b <;> cases c <;> simp_all [optStrLeB]
    exact le_trans h h2⟩

/- ------------------------------------------------------------------ -/
/- Helper lemmas                                                      -/
/- ------------------------------------------------------------------ -/

theorem maxOpt_char {α} [LinearOrder α] (l : List α) (m : α) :
    l.max? = some m ↔ m ∈ l ∧ ∀ x ∈ l, x ≤ m := by
  have hA : Std.Antisymm (α := α) (· ≤ ·) := ⟨fun h h2 => le_antisymm h h2⟩
  rw [List.max?_eq_some_iff] <;> simp [le_total, max_le_iff, le_refl, max_choice]

theorem minOpt_char {α} [LinearOrder α] (l : List α) (m : α) :
    l.min? = some m ↔ m ∈ l ∧ ∀ x ∈ l, m ≤ x := by
  have hA : Std.Antisymm (α := α) (· ≤ ·) := ⟨fun h h2 => le_antisymm h h2⟩
  rw [List.min?_eq_some_iff] <;> simp [le_total, le_min_iff, le_refl, min_choice]

theorem pyOrI_zero (x : Option Int) : pyOrI x 0 = x.getD 0 := by
  cases x with
  | none => rfl
  | some v =>
      by_cases h : v = 0
      · simp [pyOrI, h]
      · simp [pyOrI, h]

/-- The head of a filtered list is the first element satisfying the filter. -/
theorem head_filter_char {α} (p : α → Bool) (l : List α) (a : α) :
    (l.filter p).head? = some a ↔
      ∃ l1 l2, l = l1 ++ a :: l2 ∧ (∀ x ∈ l1, p x = false) ∧ p a = true := by
  induction l with
  | nil => simp
  | cons x xs ih =>
    by_cases hx : p x
    · rw [List.filter_cons_of_pos hx]
      simp only [List.head?_cons, Option.some.injEq]
      constructor
      · rintro rfl
        exact ⟨[], xs, rfl, by simp, hx⟩
      · rintro ⟨l1, l2, heq, hall, _⟩
        cases l1 with
        | nil => simpa using congrArg List.head? heq
        | cons y ys =>
            simp only [List.cons_append] at heq
            injection heq with h1 _
            have : p x = false := h1 ▸ hall y (List.mem_cons_self y ys)
            simp [this] at hx
    · have hx' : p x = false := by simpa using hx
      rw [List.filter_cons_of_neg (by simp [hx'])]
      rw [ih]
      constructor
      · rintro ⟨l1, l2, heq, hall, ha⟩
        refine ⟨x :: l1, l2, by rw [heq, List.cons_append], ?_, ha⟩
        intro z hz
        rcases List.mem_cons.mp hz with rfl | hz
        · exact hx'
        · exact hall z hz
      · rintro ⟨l1, l2, heq, hall, ha⟩
        cases l1 with
        | nil =>
            injection heq with h1 _
            rw [h1] at hx'
            simp [ha] at hx'
        | cons y ys =>
            simp only [List.cons_append] at heq
            injection heq with _ h2
            exact ⟨ys, l2, h2, fun z hz => hall z (List.mem_cons_of_mem y hz), ha⟩

theorem lookupWeight_nil (d : Int) : lookupWeight [] d = none := rfl

theorem lookupWeight_cons (q : Int × ℚ) (l : List (Int × ℚ)) (d : Int) :
    lookupWeight (q :: l) d
      = if (q.1 == d) = true then some q.2 else lookupWeight l d := by
  by_cases h : (q.1 == d) = true
  · simp [lookupWeight, List.find?_cons, h]
  · have h' : (q.1 == d) = false := by simpa using h
    simp [lookupWeight, List.find?_cons, h']

/-- `lookupWeight` finds the updated value after an in-place key update. -/
theorem log_weight_lookup_self (w : List (Int × ℚ)) (d : Int) (v : ℚ)
    (h : w.any (fun p => p.1 == d) = true) :
    lookupWeight (w.map (fun p => if p.1 == d then (d, v) else p)) d = some v := by
  induction w with
  | nil => simp at h
  | cons q rest ih =>
      rw [List.map_cons]
      by_cases hq : q.1 = d
      · have hf : (if (q.1 == d) = true then (d, v) else q) = (d, v) := by simp [hq]
        rw [hf, lookupWeight_cons]
        simp
      · have hq' : (q.1 == d) = false := by simpa using hq
        have hf : (if (q.1 == d) = true then (d, v) else q) = q := by simp [hq']
        rw [hf, lookupWeight_cons, if_neg (by simp [hq'])]
        have h2 : rest.any (fun p => p.1 == d) = true := by
          simpa [List.any_cons, hq'] using h
        exact ih h2

/-- `lookupWeight` at other keys is unchanged by an in-place key update. -/
theorem log_weight_lookup_other_map (w : List (Int × ℚ)) (d d' : Int) (v : ℚ)
    (hne : d' ≠ d) :
    lookupWeight (w.map (fun p => if p.1 == d then (d, v) else p)) d'
      = lookupWeight w d' := by
  induction w with
  | nil => rfl
  | cons q rest ih =>
      rw [List.map_cons]
      by_cases hq : q.1 = d
      · have hf : (if (q.1 == d) = true then (d, v) else q) = (d, v) := by simp [hq]
        have hd : (d == d') = false := by simpa using fun h2 => hne h2.symm
        have hq2 : (q.1 == d') = false := by
          rw [hq]; exact hd
        rw [hf, lookupWeight_cons, lookupWeight_cons, if_neg (by simp [hd]),
          if_neg (by simp [hq2])]
        exact ih
      · have hq' : (q.1 == d) = false := by simpa using hq
        have hf : (if (q.1 == d) = true then (d, v) else q) = q := by simp [hq']
        rw [hf, lookupWeight_cons, lookupWeight_cons]
        by_cases hq2 : (q.1 == d') = true
        · rw [if_pos hq2, if_pos hq2]
        · rw [if_neg hq2, if_neg hq2]
          exact ih

/-- `lookupWeight` finds a freshly appended entry when its key was absent. -/
theorem lookupWeight_append_self (w : List (Int × ℚ)) (d : Int) (v : ℚ)
    (h : w.any (fun p => p.1 == d) = false) :
    lookupWeight (w ++ [(d, v)]) d = some v := by
  induction w with
  | nil => simp [lookupWeight_cons]
  | cons q rest ih =>
      simp only [List.any_cons, Bool.or_eq_false_iff] at h
      rw [List.cons_append, lookupWeight_cons, if_neg (by simp [h.1])]
      exact ih h.2

/-- `lookupWeight` at other keys ignores a freshly appended entry. -/
theorem lookupWeight_append_other (w : List (Int × ℚ)) (d d' : Int) (v : ℚ)
    (hne : d' ≠ d) :
    lookupWeight (w ++ [(d, v)]) d' = lookupWeight w d' := by
  induction w with
  | nil =>
      have hd : (d == d') = false := by simpa using fun h2 => hne h2.symm
      simp [lookupWeight_nil, lookupWeight_cons, hd]
  | cons q rest ih =>
      rw [List.cons_append, lookupWeight_cons, lookupWeight_cons]
      by_cases hq : (q.1 == d') = true
      · rw [if_pos hq, if_pos hq]
      · rw [if_neg hq, if_neg hq]
        exact ih

/-- Single-write facts for `log_weight`: lookup at the written key and at
other keys. -/
theorem log_weight_step (st : EngineState) (d : Int) (v : ℚ) :
    lookupWeight (log_weight st d v).weight_history d = some v
    ∧ ∀ d', d' ≠ d →
        lookupWeight (log_weight st d v).weight_history d'
          = lookupWeight st.weight_history d' := by
  unfold log_weight
  by_cases h : st.weight_history.any (fun p => p.1 == d) = true
  · simp only [h, if_true]
    exact ⟨log_weight_lookup_self _ _ _ h, fun d' hd' =>
      log_weight_lookup_other_map _ _ _ _ hd'⟩
  · rw [Bool.not_eq_true] at h
    simp only [h, Bool.false_eq_true, if_false]
    exact ⟨lookupWeight_append_self _ _ _ h, fun d' hd' =>
      lookupWeight_append_other _ _ _ _ hd'⟩

/-- `log_weight` keeps the `date` column duplicate-free. -/
theorem log_weight_keys_nodup (st : EngineState) (d : Int) (v : ℚ)
    (h : (weightKeys st.weight_history).Nodup) :
    (weightKeys (log_weight st d v).weight_history).Nodup := by
  unfold log_weight weightKeys at *
  by_cases hb : st.weight_history.any (fun p => p.1 == d) = true
  · simp only [hb, if_true]
    have hmap :
        (st.weight_history.map (fun p => if p.1 == d then (d, v) else p)).map Prod.fst
          = st.weight_history.map Prod.fst := by
      rw [List.map_map]
      apply List.map_congr_left
      intro p _
      by_cases hp : p.1 = d
      · simp [hp]
      · simp [hp]
    rw [hmap]
    exact h
  · rw [Bool.not_eq_true] at hb
    simp only [hb, Bool.false_eq_true, if_false]
    rw [List.map_append, List.map_singleton]
    have hd : d ∉ st.weight_history.map Prod.fst := by
      intro hmem
      rcases List.mem_map.mp hmem with ⟨p, hp, hfst⟩
      have := (List.any_eq_false.mp hb) p hp
      simp [hfst] at this
    rw [← List.concat_eq_append]
    exact List.Nodup.concat hd h

/-- After a sequence of `log_weight` calls, lookup returns the most recently
written value for the date, falling back to the prior table. -/
theorem applyWeightWrites_lookup (ws : List (Int × ℚ)) (st : EngineState) (d : Int) :
    lookupWeight (applyWeightWrites st ws).weight_history d
      = (lastWriteVal ws d).or (lookupWeight st.weight_history d) := by
  induction ws generalizing st with
  | nil => rfl
  | cons q rest ih =>
      have hstep : applyWeightWrites st (q :: rest)
          = applyWeightWrites (log_weight st q.1 q.2) rest := rfl
      rw [hstep, ih]
      by_cases hq : q.1 = d
      · by_cases hr : (rest.filter (fun p => p.1 == d)) = []
        · have h1 : lastWriteVal rest d = none := by simp [lastWriteVal, hr]
          have h2 : lastWriteVal (q :: rest) d = some q.2 := by
            simp [lastWriteVal, List.filter_cons, hq, hr]
          rw [h1, h2]
          subst hq
          show lookupWeight (log_weight st q.1 q.2).weight_history q.1 = some q.2
          exact (log_weight_step st q.1 q.2).1
        · have h2 : lastWriteVal (q :: rest) d = lastWriteVal rest d := by
            unfold lastWriteVal
            rw [List.filter_cons, if_pos (by simp [hq])]
            cases hl : rest.filter (fun p => p.1 == d) with
            | nil => exact absurd hl hr
            | cons a as => rw [List.getLast?_cons_cons]
          rw [h2]
          have hsome : ∃ u, lastWriteVal rest d = some u := by
            cases hl : rest.filter (fun p => p.1 == d) with
            | nil => exact absurd hl hr
            | cons a as =>
                cases h3 : (a :: as).getLast? with
                | none => simp at h3
                | some p => exact ⟨p.2, by simp [lastWriteVal, hl, h3]⟩
          rcases hsome with ⟨u, hu⟩
          rw [hu]
          rfl
      · have h2 : lastWriteVal (q :: rest) d = lastWriteVal rest d := by
          have hq' : (q.1 == d) = false := by simpa using hq
          simp [lastWriteVal, List.filter_cons, hq']
        rw [h2]
        cases hlw : lastWriteVal rest d with
        | some u => rfl
        | none =>
            show lookupWeight (log_weight st q.1 q.2).weight_history d
              = lookupWeight st.weight_history d
            exact (log_weight_step st q.1 q.2).2 d (fun h => hq h.symm)

/-- Filtering on a property of `f` then mapping equals mapping then
filtering. -/
theorem filter_map_comm {α β} (f : α → β) (p : β → Bool) (l : List α) :
    (l.filter (fun a => p (f a))).map f = (l.map f).filter p := by
  induction l with
  | nil => rfl
  | cons x xs ih =>
      by_cases h : p (f x)
      · simp [List.filter_cons, List.map_cons, h, ih]
      · have h' : p (f x) = false := by simpa using h
        simp [List.filter_cons, List.map_cons, h', ih]

/-- Two successive filters equal one conjunctive filter. -/
theorem filter_filter_and {α} (p q : α → Bool) (l : List α) :
    (l.filter p).filter q = l.filter (fun a => p a && q a) := by
  induction l with
  | nil => rfl
  | cons x xs ih =>
      by_cases hp : p x
      · by_cases hq : q x
        · simp [List.filter_cons, hp, hq, ih]
        · have hq' : q x = false := by simpa using hq
          simp [List.filter_cons, hp, hq', ih]
      · have hp' : p x = false := by simpa using hp
        simp [List.filter_cons, hp', ih]

/-- `filterMap volTerm` is the guarded map the spec describes. -/
theorem filterMap_volTerm (l : List Row) :
    l.filterMap volTerm
      = (l.filter (fun r => r.weight_kg.isSome && r.reps.isSome)).map
          (fun r => r.weight_kg.getD 0 * ((r.reps.getD 0 : Int) : ℚ)) := by
  induction l with
  | nil => rfl
  | cons x xs ih =>
      cases hw : x.weight_kg with
      | none => simp [List.filterMap_cons, List.filter_cons, volTerm, hw, ih]
      | some w =>
          cases hn : x.reps with
          | none => simp [List.filterMap_cons, List.filter_cons, volTerm, hw, hn, ih]
          | some n => simp [List.filterMap_cons, List.filter_cons, volTerm, hw, hn, ih]

/-- `pyTruthyStr` yields exactly the non-null, non-empty names. -/
theorem pyTruthyStr_eq_some (o : Option String) (s : String) :
    pyTruthyStr o = some s ↔ o = some s ∧ s ≠ "" := by
  cases o with
  | none => simp [pyTruthyStr]
  | some t =>
      show (if t = "" then none else some t : Option String) = some s
        ↔ some t = some s ∧ s ≠ ""
      by_cases ht : t = ""
      · rw [if_pos ht]
        subst ht
        constructor
        · intro h
          exact absurd h (by simp)
        · rintro ⟨h1, h2⟩
          injection h1 with h1
          exact absurd h1.symm h2
      · rw [if_neg ht]
        constructor
        · intro h
          injection h with h
          subst h
          exact ⟨rfl, ht⟩
        · rintro ⟨h1, _⟩
          injection h1 with h1
          rw [h1]

/-- Every date in an exercise's stagnation group has a non-null per-date
maximum. -/
theorem dateMaxVal_isSome_of_mem (rows : List Row) (ex : Option String) (d : Int)
    (hd : d ∈ stagDates rows ex) : ∃ v, dateMaxVal rows ex d = some v := by
  unfold stagDates at hd
  rw [List.mem_dedup] at hd
  rcases List.mem_map.mp hd with ⟨r, hr, hdate⟩
  rcases List.mem_filter.mp hr with ⟨hrb, hrex⟩
  have hco : (coalWM r).isSome = true := (List.mem_filter.mp hrb).2
  rcases Option.isSome_iff_exists.mp hco with ⟨w, hw⟩
  have hrmem : r ∈ (stagBase rows).filter
      (fun r => decide (r.exercise = ex ∧ r.date = d)) := by
    rw [List.mem_filter]
    exact ⟨hrb, decide_eq_true ⟨of_decide_eq_true hrex, hdate⟩⟩
  have hwmem : w ∈ ((stagBase rows).filter
      (fun r => decide (r.exercise = ex ∧ r.date = d))).filterMap coalWM :=
    List.mem_filterMap.mpr ⟨r, hrmem, hw⟩
  exact Option.isSome_iff_exists.mp (List.isSome_max?_of_mem hwmem)

/- ------------------------------------------------------------------ -/
/- Claim theorems                                                     -/
/- ------------------------------------------------------------------ -/

/-- C1: `import_user_data` on a parse failure raises the error, but the target
partition does NOT keep its prior contents — the already-committed DELETE has
emptied it.  Evaluated at a concrete prior state and failing payload. -/
theorem import_user_data_failure_wipes :
    (import_user_data stA (.error "malformed CSV row")).1 = .error "malformed CSV row"
    ∧ stA.training_history = [rowA]
    ∧ (import_user_data stA (.error "malformed CSV row")).2.training_history = []
    ∧ (import_user_data stA (.error "malformed CSV row")).2.training_history
        ≠ stA.training_history :=
  ⟨rfl, rfl, rfl, by decide⟩

/-- C2 counterexample: when the stagnation rule's query raises, the exception
propagates out of `get_automated_insights` — the integrity finding is lost and
the progress rule's finding never reaches the caller, contrary to the claim
that every rule failure is caught and skipped. -/
theorem insights_stagnation_error_propagates :
    get_automated_insights none (.ok [insightA]) (.error "db failure")
        (.ok [insightB]) (.ok []) = .error "db failure"
    ∧ ∀ l : List Insight,
        get_automated_insights none (.ok [insightA]) (.error "db failure")
          (.ok [insightB]) (.ok []) ≠ .ok l :=
  ⟨rfl, fun _ h => Except.noConfusion h⟩

/-- C2 (amended): the integrity, progress and fatigue rules are each
failure-isolated — whatever their outcomes, the result is the rule-order
concatenation of the successful rules' findings, truncated to the category
limit — while an exception in the stagnation rule propagates to the caller. -/
theorem insights_rule_isolation_amended (ex : Option String)
    (integrity progress fatigue : Except String (List Insight))
    (s : List Insight) (e : String) :
    get_automated_insights ex integrity (.ok s) progress fatigue
      = .ok ((catchRule integrity ++ s ++ catchRule progress ++ catchRule fatigue).take
          (if ex.isSome then 3 else 5))
    ∧ get_automated_insights ex integrity (.error e) progress fatigue = .error e :=
  ⟨rfl, rfl⟩

/-- C3: `log_workout` appends one row to `training_history` and touches
neither the demo partition, nor the weight table, nor the read selector —
whatever partition is selected; `toggle_demo_mode` changes only the read
selector (and hence which partition `activeRows` reads), moving no data. -/
theorem log_workout_and_toggle_frame (st : EngineState) (e : WorkoutLogEntry)
    (b : Bool) :
    (log_workout st e).training_history
        = st.training_history ++ [logWorkoutRow st.training_history e]
    ∧ (log_workout st e).demo_training_history = st.demo_training_history
    ∧ (log_workout st e).demo_mode = st.demo_mode
    ∧ (log_workout st e).weight_history = st.weight_history
    ∧ (toggle_demo_mode st b).training_history = st.training_history
    ∧ (toggle_demo_mode st b).demo_training_history = st.demo_training_history
    ∧ (toggle_demo_mode st b).weight_history = st.weight_history
    ∧ (toggle_demo_mode st b).demo_mode = b
    ∧ (toggle_demo_mode st b).activeRows
        = (if b then st.demo_training_history else st.training_history) :=
  ⟨rfl, rfl, rfl, rfl, rfl, rfl, rfl, rfl, rfl⟩

/-- C4: the row `log_workout` appends carries `row_id` = current maximum + 1
(1 on an empty partition), strictly greater than every existing `row_id` —
so `row_id` strictly increases in write order. -/
theorem log_workout_row_id_spec (st : EngineState) (e : WorkoutLogEntry) :
    (logWorkoutRow st.training_history e).row_id
        = (sqlMaxI (st.training_history.map Row.row_id)).getD 0 + 1
    ∧ (st.training_history = [] → (logWorkoutRow st.training_history e).row_id = 1)
    ∧ ∀ r ∈ st.training_history,
        r.row_id < (logWorkoutRow st.training_history e).row_id := by
  have hid : (logWorkoutRow st.training_history e).row_id
      = (sqlMaxI (st.training_history.map Row.row_id)).getD 0 + 1 := by
    show nextRowId st.training_history = _
    unfold nextRowId
    rw [pyOrI_zero]
  refine ⟨hid, ?_, ?_⟩
  · intro hnil
    rw [hid, hnil]
    rfl
  · intro r hr
    rw [hid]
    have hmem : r.row_id ∈ st.training_history.map Row.row_id :=
      List.mem_map_of_mem Row.row_id hr
    have hsome : (st.training_history.map Row.row_id).max?.isSome :=
      List.isSome_max?_of_mem hmem
    rcases Option.isSome_iff_exists.mp hsome with ⟨m, hm⟩
    have hle : r.row_id ≤ m := ((maxOpt_char _ m).mp hm).2 _ hmem
    show r.row_id < (sqlMaxI (st.training_history.map Row.row_id)).getD 0 + 1
    unfold sqlMaxI
    rw [hm, Option.getD_some]
    omega

/-- C4 witness: on the empty partition the assigned id is 1, and on a
one-row partition the existing row's id is strictly below the new id. -/
theorem log_workout_row_id_spec_witness :
    stEmpty.training_history = []
    ∧ (logWorkoutRow stEmpty.training_history entryA).row_id = 1
    ∧ rowA ∈ stA.training_history
    ∧ rowA.row_id < (logWorkoutRow stA.training_history entryA).row_id :=
  ⟨rfl, (log_workout_row_id_spec stEmpty entryA).2.1 rfl, by decide,
    (log_workout_row_id_spec stA entryA).2.2 rowA (by decide)⟩

/-- C5: `get_overview_metrics` computes exactly the spec's three KPIs over the
window `[latest - weekday(latest), latest]` of the active partition —
distinct-date count, sum of `weight_kg * reps` over rows with both fields
present, count of case-insensitive "weak point" rows — plus the selector
flag; an empty active partition yields all-zero KPIs with `latest = today`,
and the function is total (never raises). -/
theorem get_overview_metrics_spec (today : Int) (st : EngineState) :
    get_overview_metrics today st = overviewPerSpec today st
    ∧ (st.activeRows = [] →
        get_overview_metrics today st
          = { weekly_frequency := 0, total_volume_load_current_week := 0,
              active_weak_points_count := 0, is_demo := st.demo_mode }
        ∧ get_latest_date today st = today) := by
  constructor
  · unfold get_overview_metrics overviewPerSpec
    rw [OverviewMetrics.mk.injEq]
    refine ⟨?_, ?_, ?_, rfl⟩
    · rw [List.card_toFinset, ← filter_map_comm]
    · rw [filterMap_volTerm, filter_filter_and]
    · rw [filter_filter_and, List.countP_eq_length_filter]
  · intro he
    constructor
    · unfold get_overview_metrics
      rw [he]
      rfl
    · unfold get_latest_date
      rw [he]
      rfl

/-- C5 witness: the empty-partition case instantiated on a concrete state. -/
theorem get_overview_metrics_spec_witness :
    stEmpty.activeRows = []
    ∧ (get_overview_metrics 19360 stEmpty
        = { weekly_frequency := 0, total_volume_load_current_week := 0,
            active_weak_points_count := 0, is_demo := stEmpty.demo_mode }
      ∧ get_latest_date 19360 stEmpty = 19360) :=
  ⟨rfl, (get_overview_metrics_spec 19360 stEmpty).2 rfl⟩

/-- C9: `log_weight` is an upsert keyed on the date: the key set stays
duplicate-free, the written date maps to the new value, all other dates are
untouched, and after any write sequence each date maps to its most recently
written value (falling back to the prior table). -/
theorem log_weight_upsert_spec (st : EngineState) (d : Int) (v : ℚ)
    (h : (weightKeys st.weight_history).Nodup) :
    (weightKeys (log_weight st d v).weight_history).Nodup
    ∧ lookupWeight (log_weight st d v).weight_history d = some v
    ∧ (∀ d', d' ≠ d →
        lookupWeight (log_weight st d v).weight_history d'
          = lookupWeight st.weight_history d')
    ∧ (∀ ws d0, lookupWeight (applyWeightWrites st ws).weight_history d0
        = (lastWriteVal ws d0).or (lookupWeight st.weight_history d0)) :=
  ⟨log_weight_keys_nodup st d v h, (log_weight_step st d v).1,
    (log_weight_step st d v).2, fun ws d0 => applyWeightWrites_lookup ws st d0⟩

/-- C9 witness: the upsert properties instantiated on a concrete one-entry
weight table, overwriting the existing date. -/
theorem log_weight_upsert_spec_witness :
    (weightKeys stA.weight_history).Nodup
    ∧ ((weightKeys (log_weight stA 19358 72).weight_history).Nodup
      ∧ lookupWeight (log_weight stA 19358 72).weight_history 19358 = some 72
      ∧ (∀ d', d' ≠ 19358 →
          lookupWeight (log_weight stA 19358 72).weight_history d'
            = lookupWeight stA.weight_history d')
      ∧ (∀ ws d0, lookupWeight (applyWeightWrites stA ws).weight_history d0
          = (lastWriteVal ws d0).or (lookupWeight stA.weight_history d0))) :=
  ⟨by decide, log_weight_upsert_spec stA 19358 72 (by decide)⟩

/-- C10 counterexample: a row whose exercise is the non-null empty string
contributes a distinct name per the claim's reading, but `get_exercises`
drops it — Python's truthiness test excludes the empty string along with
NULL. -/
theorem get_exercises_empty_string_counterexample :
    List.map Row.exercise [rowEmptyEx] = [some ""]
    ∧ get_exercises [rowEmptyEx] = []
    ∧ exercisesPerSpec [rowEmptyEx] = [""]
    ∧ get_exercises [rowEmptyEx] ≠ exercisesPerSpec [rowEmptyEx] := by
  refine ⟨rfl, rfl, rfl, ?_⟩
  decide

/-- C10 (amended): `get_exercises` returns the distinct exercise names of the
partition, sorted ascending, with both NULL and empty-string names excluded
(so the result never contains a null or empty entry). -/
theorem get_exercises_amended_spec (rows : List Row) :
    List.Sorted (fun a b : String => a ≤ b) (get_exercises rows)
    ∧ (get_exercises rows).Nodup
    ∧ (∀ s : String, s ∈ get_exercises rows
        ↔ (some s ∈ rows.map Row.exercise ∧ s ≠ "")) := by
  unfold get_exercises
  have hsort : List.Sorted (fun a b => optStrLeB a b = true)
      (List.insertionSort (fun a b => optStrLeB a b = true)
        ((rows.map Row.exercise).dedup)) :=
    List.sorted_insertionSort _ _
  have hperm : (List.insertionSort (fun a b => optStrLeB a b = true)
      ((rows.map Row.exercise).dedup)).Perm ((rows.map Row.exercise).dedup) :=
    List.perm_insertionSort _ _
  have hnd : (List.insertionSort (fun a b => optStrLeB a b = true)
      ((rows.map Row.exercise).dedup)).Nodup :=
    hperm.nodup_iff.mpr (List.nodup_dedup _)
  refine ⟨?_, ?_, ?_⟩
  · rw [List.Sorted, List.pairwise_filterMap]
    refine hsort.imp ?_
    intro a b hab x hx y hy
    rcases (pyTruthyStr_eq_some a x).mp (Option.mem_def.mp hx) with ⟨rfl, _⟩
    rcases (pyTruthyStr_eq_some b y).mp (Option.mem_def.mp hy) with ⟨rfl, _⟩
    simpa [optStrLeB] using hab
  · refine List.Nodup.filterMap ?_ hnd
    intro a a' b hb hb'
    rcases (pyTruthyStr_eq_some a b).mp (Option.mem_def.mp hb) with ⟨rfl, _⟩
    rcases (pyTruthyStr_eq_some a' b).mp (Option.mem_def.mp hb') with ⟨rfl, _⟩
    rfl
  · intro s
    rw [List.mem_filterMap]
    constructor
    · rintro ⟨o, hoS, hfo⟩
      rcases (pyTruthyStr_eq_some o s).mp hfo with ⟨rfl, hs⟩
      exact ⟨List.mem_dedup.mp (hperm.mem_iff.mp hoS), hs⟩
    · rintro ⟨hmem, hs⟩
      exact ⟨some s, hperm.mem_iff.mpr (List.mem_dedup.mpr hmem),
        (pyTruthyStr_eq_some _ _).mpr ⟨rfl, hs⟩⟩

/-- C7: the progress rule fires for an exercise iff, among its non-null
`COALESCE(weight_kg, machine_level)` values on rows in the trailing-30-day
window, the greatest strictly exceeds 1.05 times the least (a ratio of
exactly 1.05 does not fire); the condition places no chronological
requirement on where the maximum and minimum occur. -/
theorem progress_rule_spec (today : Int) (rows : List Row) (ex : Option String) :
    progressFires today rows ex = true ↔ progressPerSpec today rows ex := by
  unfold progressFires progressPerSpec sqlMinQ sqlMaxQ
  cases hmn : (progressWindowVals today rows ex).min? with
  | none =>
      have hnil : progressWindowVals today rows ex = [] :=
        List.min?_eq_none_iff.mp hmn
      simp [hnil]
  | some mn =>
      cases hmx : (progressWindowVals today rows ex).max? with
      | none =>
          have hnil : progressWindowVals today rows ex = [] :=
            List.max?_eq_none_iff.mp hmx
          rw [hnil] at hmn
          simp at hmn
      | some mx =>
          have hmn' := (minOpt_char _ mn).mp hmn
          have hmx' := (maxOpt_char _ mx).mp hmx
          constructor
          · intro h
            exact ⟨mn, mx, hmn'.1, hmx'.1,
              fun v hv => ⟨hmn'.2 v hv, hmx'.2 v hv⟩, of_decide_eq_true h⟩
          · rintro ⟨mn2, mx2, hmn2, hmx2, hbound, hlt⟩
            have e1 : mn2 = mn :=
              le_antisymm ((hbound mn hmn'.1).1) (hmn'.2 mn2 hmn2)
            have e2 : mx2 = mx :=
              le_antisymm (hmx'.2 mx2 hmx2) ((hbound mx hmx'.1).2)
            exact decide_eq_true (e1 ▸ e2 ▸ hlt)

/-- C8: the integrity rule yields at most one finding, a critical/integrity
one; it reports some pair iff that pair is the earliest adjacent
`(predecessor, successor)` pair in `row_id` order whose successor has a
strictly smaller calendar year; and it reports nothing iff no adjacent pair
regresses in year. -/
theorem integrity_rule_spec (rows : List Row) (p s : Row) :
    (integrityInsights rows).length ≤ 1
    ∧ (∀ i ∈ integrityInsights rows, i.type = "critical" ∧ i.category = "integrity")
    ∧ (integrityAnomaly rows = some (p, s) ↔
        ∃ before after, adjacentPairs rows = before ++ (p, s) :: after
          ∧ (∀ q ∈ before, anomalousPair q = false)
          ∧ anomalousPair (p, s) = true)
    ∧ (integrityAnomaly rows = none ↔
        ∀ q ∈ adjacentPairs rows, anomalousPair q = false) := by
  refine ⟨?_, ?_, ?_, ?_⟩
  · unfold integrityInsights
    cases h : integrityAnomaly rows <;> simp
  · unfold integrityInsights
    cases h : integrityAnomaly rows <;> simp
  · unfold integrityAnomaly
    exact head_filter_char anomalousPair (adjacentPairs rows) (p, s)
  · unfold integrityAnomaly
    rw [List.head?_eq_none_iff, List.filter_eq_nil_iff]
    simp only [Bool.not_eq_true]

/-- C6: the stagnation rule warns on an exercise iff it has at least 3
distinct dates with a non-null per-date maximum of
`COALESCE(weight_kg, machine_level)` and the maxima of its 3 most recent such
dates are all equal; and the triple-equality test fails whenever any one of
the three equal values is replaced by a different one. -/
theorem stagnation_rule_spec (rows : List Row) (ex : Option String) (a x : ℚ)
    (hx : x ≠ a) :
    (stagnationFires rows ex = true ↔ stagPerSpec rows ex)
    ∧ allThreeEqual (some a) (some a) (some a) = true
    ∧ allThreeEqual (some x) (some a) (some a) = false
    ∧ allThreeEqual (some a) (some x) (some a) = false
    ∧ allThreeEqual (some a) (some a) (some x) = false := by
  refine ⟨?_, by simp [allThreeEqual], by simp [allThreeEqual, hx],
    by simp [allThreeEqual, Ne.symm hx], by simp [allThreeEqual, Ne.symm hx]⟩
  have hperm : (sortDescInt (stagDates rows ex)).Perm (stagDates rows ex) :=
    List.perm_insertionSort _ _
  have hsort : List.Sorted (fun a b : Int => b ≤ a) (sortDescInt (stagDates rows ex)) :=
    List.sorted_insertionSort _ _
  have hndL : (sortDescInt (stagDates rows ex)).Nodup :=
    hperm.nodup_iff.mpr (List.nodup_dedup _)
  unfold stagnationFires
  constructor
  · intro h
    rcases hL : sortDescInt (stagDates rows ex) with
      _ | ⟨d1, _ | ⟨d2, _ | ⟨d3, rest⟩⟩⟩
    · rw [hL] at h
      exact Bool.noConfusion h
    · rw [hL] at h
      exact Bool.noConfusion h
    · rw [hL] at h
      exact Bool.noConfusion h
    · rw [hL] at h hperm hsort hndL
      have h' : allThreeEqual (dateMaxVal rows ex d1) (dateMaxVal rows ex d2)
          (dateMaxVal rows ex d3) = true := h
      unfold allThreeEqual at h'
      rw [Bool.and_eq_true] at h'
      rcases h' with ⟨hAB, hBC⟩
      have eAB : dateMaxVal rows ex d1 = dateMaxVal rows ex d2 :=
        of_decide_eq_true hAB
      have eBC : dateMaxVal rows ex d2 = dateMaxVal rows ex d3 :=
        of_decide_eq_true hBC
      rcases List.pairwise_cons.mp hsort with ⟨hp1, hs2⟩
      rcases List.pairwise_cons.mp hs2 with ⟨hp2, hs3⟩
      rcases List.pairwise_cons.mp hs3 with ⟨hp3, _⟩
      rcases List.nodup_cons.mp hndL with ⟨hn1, hnd2⟩
      rcases List.nodup_cons.mp hnd2 with ⟨hn2, hnd3⟩
      rcases List.nodup_cons.mp hnd3 with ⟨hn3, _⟩
      have h12 : d2 ≤ d1 := hp1 d2 (by simp)
      have h23 : d3 ≤ d2 := hp2 d3 (by simp)
      have hne12 : d2 ≠ d1 := fun e => hn1 (by simp [e])
      have hne23 : d3 ≠ d2 := fun e => hn2 (by simp [e])
      have hlt12 : d2 < d1 := h12.lt_of_ne hne12
      have hlt23 : d3 < d2 := h23.lt_of_ne hne23
      have m1 : d1 ∈ stagDates rows ex := hperm.mem_iff.mp (by simp)
      have m2 : d2 ∈ stagDates rows ex := hperm.mem_iff.mp (by simp)
      have m3 : d3 ∈ stagDates rows ex := hperm.mem_iff.mp (by simp)
      rcases dateMaxVal_isSome_of_mem rows ex d1 m1 with ⟨v, hv⟩
      refine ⟨d1, d2, d3, m1, m2, m3, hlt23, hlt12, ?_, v, hv, ?_, ?_⟩
      · intro d hd
        have hdL : d ∈ d1 :: d2 :: d3 :: rest := hperm.mem_iff.mpr hd
        rcases List.mem_cons.mp hdL with rfl | hdL
        · exact Or.inl rfl
        rcases List.mem_cons.mp hdL with rfl | hdL
        · exact Or.inr (Or.inl rfl)
        rcases List.mem_cons.mp hdL with rfl | hdL
        · exact Or.inr (Or.inr (Or.inl rfl))
        · have hle : d ≤ d3 := hp3 d hdL
          have hne : d ≠ d3 := fun e => hn3 (e ▸ hdL)
          exact Or.inr (Or.inr (Or.inr (hle.lt_of_ne hne)))
      · rw [← eAB]
        exact hv
      · rw [← eBC, ← eAB]
        exact hv
  · rintro ⟨d1, d2, d3, h1, h2, h3, h32, h21, hall, v, hv1, hv2, hv3⟩
    have m1 : d1 ∈ sortDescInt (stagDates rows ex) := hperm.mem_iff.mpr h1
    have m2 : d2 ∈ sortDescInt (stagDates rows ex) := hperm.mem_iff.mpr h2
    have m3 : d3 ∈ sortDescInt (stagDates rows ex) := hperm.mem_iff.mpr h3
    rcases hL : sortDescInt (stagDates rows ex) with
      _ | ⟨e1, _ | ⟨e2, _ | ⟨e3, rest⟩⟩⟩
    · rw [hL] at m1
      exact absurd m1 (List.not_mem_nil d1)
    · rw [hL] at m1 m2
      have a1 := List.mem_singleton.mp m1
      have a2 := List.mem_singleton.mp m2
      exfalso
      omega
    · rw [hL] at m1 m2 m3
      exfalso
      simp only [List.mem_cons, List.not_mem_nil, or_false] at m1 m2 m3
      rcases m1 with rfl | rfl <;> rcases m2 with h2' | h2' <;>
        rcases m3 with h3' | h3' <;> omega
    · rw [hL] at m1 m2 m3 hperm hsort hndL
      show allThreeEqual (dateMaxVal rows ex e1) (dateMaxVal rows ex e2)
        (dateMaxVal rows ex e3) = true
      rcases List.pairwise_cons.mp hsort with ⟨hp1, hs2⟩
      rcases List.pairwise_cons.mp hs2 with ⟨hp2, hs3⟩
      rcases List.pairwise_cons.mp hs3 with ⟨hp3, _⟩
      rcases List.nodup_cons.mp hndL with ⟨hn1, hnd2⟩
      rcases List.nodup_cons.mp hnd2 with ⟨hn2, hnd3⟩
      rcases List.nodup_cons.mp hnd3 with ⟨hn3, _⟩
      have me1 : e1 ∈ stagDates rows ex := hperm.mem_iff.mp (by simp)
      have me2 : e2 ∈ stagDates rows ex := hperm.mem_iff.mp (by simp)
      have me3 : e3 ∈ stagDates rows ex := hperm.mem_iff.mp (by simp)
      have hd1e1 : d1 ≤ e1 := by
        rcases List.mem_cons.mp m1 with rfl | hm
        · exact le_refl _
        · exact hp1 d1 hm
      have he1 : e1 = d1 := by
        rcases hall e1 me1 with h | h | h | h <;> omega
      have hd2e2 : d2 ≤ e2 := by
        rcases List.mem_cons.mp m2 with rfl | hm
        · omega
        · rcases List.mem_cons.mp hm with rfl | hm'
          · exact le_refl _
          · exact hp2 d2 hm'
      have he2 : e2 = d2 := by
        have hne : e2 ≠ e1 := fun e => hn1 (by simp [← e])
        rcases hall e2 me2 with h | h | h | h <;> omega
      have hd3e3 : d3 ≤ e3 := by
        rcases List.mem_cons.mp m3 with rfl | hm
        · omega
        · rcases List.mem_cons.mp hm with rfl | hm'
          · omega
          · rcases List.mem_cons.mp hm' with rfl | hm''
            · exact le_refl _
            · exact hp3 d3 hm''
      have he3 : e3 = d3 := by
        have hne1 : e3 ≠ e1 := fun e => hn1 (by simp [← e])
        have hne2 : e3 ≠ e2 := fun e => hn2 (by simp [← e])
        rcases hall e3 me3 with h | h | h | h <;> omega
      rw [he1, he2, he3, hv1, hv2, hv3]
      simp [allThreeEqual]

/-- C6 witness: the theorem instantiated at a concrete state and a concrete
pair of distinct values. -/
theorem stagnation_rule_spec_witness :
    (3 : ℚ) ≠ 5
    ∧ ((stagnationFires [] none = true ↔ stagPerSpec [] none)
      ∧ allThreeEqual (some 5) (some 5) (some 5) = true
      ∧ allThreeEqual (some 3) (some 5) (some 5) = false
      ∧ allThreeEqual (some 5) (some 3) (some 5) = false
      ∧ allThreeEqual (some 5) (some 5) (some 3) = false) :=
  ⟨by decide, stagnation_rule_spec [] none 5 3 (by decide)⟩

end Biome
